import Mathlib

/-!
Shallow embedding of `src/app/app_builder.rs` (the `AppBuilder` staged-scheduling
core) and the external-collaborator surfaces it touches, together with proofs of
the specification claims about it.

Work units (`Box<dyn Schedulable>` / `Box<dyn Runnable>`) are opaque in the
source; they are embedded as natural-number identifiers.  The two `HashMap`s of
the builder are embedded as association lists (the source only ever calls
`get`, `insert`, `get_mut` and `remove_entry` on them, never iterates them, so
first-match association-list semantics coincides with `HashMap` semantics on
the duplicate-free key sets the builder maintains).  Fallible `Option::unwrap`
calls are embedded by returning `Except PanicKind`.
-/

/-- Work units (`Box<dyn Schedulable>` and `Box<dyn Runnable>`) are opaque in the
source; they are embedded as natural-number identifiers. -/
abbrev Sys := Nat

/-- One call made against legion's `Schedule::builder()` while `build()` assembles
the main schedule: `add_system`, `add_thread_local`, or `flush`.  The compiled
schedule is embedded as the sequence of these calls (its shape), the executor
being an external collaborator. -/
inductive Step where
  | system (s : Sys)
  | threadLocal (s : Sys)
  | flush
  deriving DecidableEq, Repr

/-- Association-list embedding of `HashMap<String, Vec<...>>`. -/
abbrev Reg := List (String × List Sys)

/-- `HashMap::get`: first entry with the given key. -/
def alistGet : Reg → String → Option (List Sys)
  | [], _ => none
  | p :: rest, k => if p.1 = k then some p.2 else alistGet rest k

/-- `HashMap::insert`: replace the first entry with the given key, or append a
fresh entry at the end (the source only calls this when the key is absent). -/
def alistInsert : Reg → String → List Sys → Reg
  | [], k, v => [(k, v)]
  | p :: rest, k, v => if p.1 = k then (k, v) :: rest else p :: alistInsert rest k v

/-- `HashMap::get_mut(k).unwrap().push(s)`: push onto the first entry with the
given key (the source only calls this when the key is present). -/
def alistPush : Reg → String → Sys → Reg
  | [], _, _ => []
  | p :: rest, k, s => if p.1 = k then (p.1, p.2 ++ [s]) :: rest else p :: alistPush rest k s

/-- `HashMap::remove_entry`: return the first entry with the given key (if any)
and the map without it. -/
def alistRemoveEntry : Reg → String → Option (List Sys) × Reg
  | [], _ => (none, [])
  | p :: rest, k =>
    if p.1 = k then (some p.2, rest)
    else
      let r := alistRemoveEntry rest k
      (r.1, p :: r.2)

/-- Sum of the lengths of all value lists of the map (total registered units). -/
def totalLen (m : Reg) : Nat := (m.map (fun p => p.2.length)).sum

/-- First occurrences of the elements of a list, skipping anything in `seen`. -/
def firstSeenAux [DecidableEq α] (seen : List α) : List α → List α
  | [] => []
  | x :: xs => if x ∈ seen then firstSeenAux seen xs else x :: firstSeenAux (x :: seen) xs

/-- The sequence of first-seen distinct elements of a list. -/
def firstSeen [DecidableEq α] (l : List α) : List α := firstSeenAux [] l

/-- Pack a registered-units list as the corresponding map-lookup result: a stage
entry exists exactly when at least one unit was registered under it. -/
def olist : List Sys → Option (List Sys)
  | [] => none
  | l => some l

/-- Which `Option::unwrap` panicked (the name of the `None` slot). -/
inductive PanicKind where
  | unwrapNone (slot : String)
  deriving DecidableEq, Repr

/-- Entity/component world of legion (external collaborator).  Only its role as
the target of system execution is embedded: a log of the units executed
against it. -/
structure World where
  log : List Sys
  deriving DecidableEq, Repr

/-- The render graph (`render_graph::RenderGraph`, not under `src/`).  Modelled
from the spec: a mapping from draw-target name to routine and a mapping from
resource-provider name to routine; routines are opaque identifiers. -/
structure RenderGraph where
  draw_targets : List (String × Nat)
  resource_providers : List (String × Nat)
  deriving DecidableEq, Repr

/-- `RenderGraph::default()`: the empty graph. -/
def RenderGraph.default : RenderGraph := { draw_targets := [], resource_providers := [] }

/-- Typed resource table of legion (external collaborator): an opaque key-value
store; only the slot the core inserts into (the finalized render graph) is
embedded. -/
structure Resources where
  render_graph : Option RenderGraph
  deriving DecidableEq, Repr

/-- `Resources::default()`: the empty table. -/
def Resources.default : Resources := { render_graph := none }

/-- `resources.insert(render_graph)`: typed insertion overwrites the slot. -/
def Resources.insertRenderGraph (r : Resources) (g : RenderGraph) : Resources :=
  { r with render_graph := some g }

/-- The legion `Universe` (external collaborator), opaque to the core. -/
structure Universe where
  deriving DecidableEq, Repr

/-- `Universe::new()`. -/
def Universe.new : Universe := {}

/-- `universe.create_world()`: a fresh world with no executed units. -/
def Universe.create_world (_ : Universe) : World := { log := [] }

/-- `Box<dyn Renderer>` (external collaborator), embedded as an opaque identifier. -/
abbrev Renderer := Nat

/-- Replace-or-append insertion for render-graph fragment maps.  Modelled from
the spec: duplicate names for the same fragment kind overwrite the earlier
entry (last registration wins). -/
def fgInsert : List (String × Nat) → String → Nat → List (String × Nat)
  | [], k, v => [(k, v)]
  | p :: rest, k, v => if p.1 = k then (k, v) :: rest else p :: fgInsert rest k v

/-- `RenderGraphBuilder` (render module, not under `src/`).  Modelled from the
spec: a mutable builder over the graph being extended; its borrow of the
resource table is opaque to the core and omitted. -/
structure RenderGraphBuilder where
  render_graph : RenderGraph
  deriving DecidableEq, Repr

/-- `render_graph.build(resources)`: a builder pre-populated with the fragments
registered so far.  Modelled from the spec; the resource-table borrow is opaque. -/
def RenderGraph.build (g : RenderGraph) : RenderGraphBuilder := { render_graph := g }

/-- `builder.add_draw_target(...)`.  Modelled from the spec: append the fragment,
last registration wins on name collision. -/
def RenderGraphBuilder.add_draw_target (b : RenderGraphBuilder) (name : String) (routine : Nat) :
    RenderGraphBuilder :=
  { render_graph := { b.render_graph with
      draw_targets := fgInsert b.render_graph.draw_targets name routine } }

/-- `builder.add_resource_provider(...)`.  Modelled from the spec: append the
fragment, last registration wins on name collision. -/
def RenderGraphBuilder.add_resource_provider (b : RenderGraphBuilder) (name : String)
    (routine : Nat) : RenderGraphBuilder :=
  { render_graph := { b.render_graph with
      resource_providers := fgInsert b.render_graph.resource_providers name routine } }

/-- `builder.finish()`: the assembled immutable graph. -/
def RenderGraphBuilder.finish (b : RenderGraphBuilder) : RenderGraph := b.render_graph

/-- The `AppBuilder` struct (`src/app/app_builder.rs`, lines 25–35).  The Rust
field `universe` is renamed `univ` because `universe` is a Lean keyword. -/
structure AppBuilder where
  world : Option World
  resources : Option Resources
  univ : Option Universe
  renderer : Option Renderer
  render_graph : Option RenderGraph
  setup_systems : List Sys
  system_stages : Reg
  runnable_stages : Reg
  stage_order : List String
  deriving DecidableEq, Repr

/-- `AppBuilder::new()` (lines 38–53). -/
def AppBuilder.new : AppBuilder :=
  { univ := some Universe.new
  , world := some (Universe.create_world Universe.new)
  , resources := some Resources.default
  , render_graph := some RenderGraph.default
  , renderer := none
  , setup_systems := []
  , system_stages := []
  , runnable_stages := []
  , stage_order := [] }

/-- The constant `system_stage::UPDATE`.  Modelled from the spec: the
`app::system_stage` module is not under `src/`; only the existence of the
named UPDATE stage matters, not its string value. -/
def system_stage.UPDATE : String := "update"

/-- `AppBuilder::add_system_to_stage` (lines 126–141). -/
def AppBuilder.add_system_to_stage (b : AppBuilder) (stage_name : String) (system : Sys) :
    AppBuilder :=
  let b :=
    if (alistGet b.system_stages stage_name) = none then
      { b with system_stages := alistInsert b.system_stages stage_name []
             , stage_order := b.stage_order ++ [stage_name] }
    else b
  { b with system_stages := alistPush b.system_stages stage_name system }

/-- `AppBuilder::add_runnable_to_stage` (lines 143–158). -/
def AppBuilder.add_runnable_to_stage (b : AppBuilder) (stage_name : String) (system : Sys) :
    AppBuilder :=
  let b :=
    if (alistGet b.runnable_stages stage_name) = none then
      { b with runnable_stages := alistInsert b.runnable_stages stage_name []
             , stage_order := b.stage_order ++ [stage_name] }
    else b
  { b with runnable_stages := alistPush b.runnable_stages stage_name system }

/-- `AppBuilder::add_system` (lines 117–119): delegates to
`add_system_to_stage(system_stage::UPDATE, system)`. -/
def AppBuilder.add_system (b : AppBuilder) (system : Sys) : AppBuilder :=
  b.add_system_to_stage system_stage.UPDATE system

/-- `AppBuilder::add_setup_system` (lines 121–124). -/
def AppBuilder.add_setup_system (b : AppBuilder) (system : Sys) : AppBuilder :=
  { b with setup_systems := b.setup_systems ++ [system] }

/-- `setup_schedule.execute(world, resources)` for the one-shot setup schedule.
Modelled from the spec: the external executor runs every unit of the setup
batch once to completion against the world and resources; embedded as
appending each executed unit to the world's log in batch order. -/
def executeSystems (systems : List Sys) (w : World) (r : Resources) : World × Resources :=
  ({ log := w.log ++ systems }, r)

/-- The main-schedule assembly loop of `build()` (lines 67–84): iterate
`stage_order`; `remove_entry` the parallel entry, append its units then
`flush()`; `remove_entry` the exclusive entry, append its units as
`add_thread_local` then `flush()`.  Returns the schedule shape and the two
drained maps. -/
def drainStages : Reg → Reg → List String → List Step × Reg × Reg
  | sys, runn, [] => ([], sys, runn)
  | sys, runn, stage_name :: rest =>
    let r1 := alistRemoveEntry sys stage_name
    let steps1 :=
      match r1.1 with
      | some stage_systems => stage_systems.map Step.system ++ [Step.flush]
      | none => []
    let r2 := alistRemoveEntry runn stage_name
    let steps2 :=
      match r2.1 with
      | some stage_runnables => stage_runnables.map Step.threadLocal ++ [Step.flush]
      | none => []
    let rr := drainStages r1.2 r2.2 rest
    (steps1 ++ steps2 ++ rr.1, rr.2)

/-- The `App` produced by `build()` (`App::new(universe, world, schedule,
resources, renderer)`). -/
structure App where
  univ : Universe
  world : World
  schedule : List Step
  resources : Resources
  renderer : Option Renderer
  deriving DecidableEq, Repr

/-- `AppBuilder::build` (lines 55–98).  `&mut self` is embedded by also
returning the post-call builder; each `Option::unwrap` on a `None` slot is
embedded as `Except.error (PanicKind.unwrapNone slot)`, in the source's
evaluation order (the setup execute unwraps `world` first). -/
def AppBuilder.build (b : AppBuilder) : Except PanicKind (App × AppBuilder) :=
  let setupList := b.setup_systems
  let b := { b with setup_systems := [] }
  match b.world with
  | none => .error (.unwrapNone "world")
  | some w =>
    match b.resources with
    | none => .error (.unwrapNone "resources")
    | some res =>
      let wr := executeSystems setupList w res
      let b := { b with world := some wr.1, resources := some wr.2 }
      let dr := drainStages b.system_stages b.runnable_stages b.stage_order
      let b := { b with system_stages := dr.2.1, runnable_stages := dr.2.2 }
      match b.resources with
      | none => .error (.unwrapNone "resources")
      | some res2 =>
        match b.render_graph with
        | none => .error (.unwrapNone "render_graph")
        | some g =>
          let b := { b with render_graph := none
                          , resources := some (res2.insertRenderGraph g) }
          match b.univ with
          | none => .error (.unwrapNone "universe")
          | some u =>
            match b.world with
            | none => .error (.unwrapNone "world")
            | some w2 =>
              match b.resources with
              | none => .error (.unwrapNone "resources")
              | some res3 =>
                .ok ({ univ := u, world := w2, schedule := dr.1
                     , resources := res3, renderer := b.renderer },
                     { b with univ := none, world := none, resources := none
                            , renderer := none })

/-- `AppBuilder::setup_render_graph` (lines 210–226): take the graph slot,
build a pre-populated builder (unwrapping the resource borrow), hand it to the
caller-supplied setup function, store `finish()` back into the slot. -/
def AppBuilder.setup_render_graph (b : AppBuilder)
    (setup : RenderGraphBuilder → RenderGraphBuilder) : Except PanicKind AppBuilder :=
  match b.render_graph with
  | none => .error (.unwrapNone "render_graph")
  | some g =>
    match b.resources with
    | none => .error (.unwrapNone "resources")
    | some _res =>
      let render_graph_builder := setup (RenderGraph.build g)
      .ok { b with render_graph := some render_graph_builder.finish }

/-- The main-schedule shape a builder state would compile to. -/
def mainSteps (b : AppBuilder) : List Step :=
  (drainStages b.system_stages b.runnable_stages b.stage_order).1

/-- One registration call against the builder's staged-scheduling surface. -/
inductive RegOp where
  | addSystem (s : Sys)
  | addSetupSystem (s : Sys)
  | addSystemToStage (stage_name : String) (s : Sys)
  | addRunnableToStage (stage_name : String) (s : Sys)
  deriving DecidableEq, Repr

/-- Apply one registration call. -/
def applyOp (b : AppBuilder) : RegOp → AppBuilder
  | .addSystem s => b.add_system s
  | .addSetupSystem s => b.add_setup_system s
  | .addSystemToStage n s => b.add_system_to_stage n s
  | .addRunnableToStage n s => b.add_runnable_to_stage n s

/-- Apply a sequence of registration calls, left to right. -/
def applyOps (b : AppBuilder) (ops : List RegOp) : AppBuilder := ops.foldl applyOp b

/-- The order-determining key of a registration call: its kind (`false` for the
parallel map, `true` for the exclusive map) and stage name, if it targets a
stage. -/
def stageKey : RegOp → Option (Bool × String)
  | .addSystem _ => some (false, system_stage.UPDATE)
  | .addSetupSystem _ => none
  | .addSystemToStage n _ => some (false, n)
  | .addRunnableToStage n _ => some (true, n)

/-- The stage name a call registers a parallel unit under, if any. -/
def parName : RegOp → Option String
  | .addSystem _ => some system_stage.UPDATE
  | .addSystemToStage n _ => some n
  | _ => none

/-- The stage name a call registers an exclusive unit under, if any. -/
def excName : RegOp → Option String
  | .addRunnableToStage n _ => some n
  | _ => none

/-- The setup systems a call sequence registers, in order. -/
def setupOf (ops : List RegOp) : List Sys :=
  ops.filterMap fun op =>
    match op with
    | .addSetupSystem s => some s
    | _ => none

/-- The parallel units a call sequence registers under a given stage, in order. -/
def registeredPar (ops : List RegOp) (n : String) : List Sys :=
  ops.filterMap fun op =>
    match op with
    | .addSystem s => if system_stage.UPDATE = n then some s else none
    | .addSystemToStage m s => if m = n then some s else none
    | _ => none

/-- The exclusive units a call sequence registers under a given stage, in order. -/
def registeredExc (ops : List RegOp) (n : String) : List Sys :=
  ops.filterMap fun op =>
    match op with
    | .addRunnableToStage m s => if m = n then some s else none
    | _ => none

/-- Whether a schedule step is a work unit (not a barrier). -/
def isUnit : Step → Bool
  | .flush => false
  | _ => true

/-- The parallel units of a schedule shape, in order. -/
def parUnits (l : List Step) : List Sys :=
  l.filterMap fun st =>
    match st with
    | .system s => some s
    | _ => none

/-- The exclusive units of a schedule shape, in order. -/
def excUnits (l : List Step) : List Sys :=
  l.filterMap fun st =>
    match st with
    | .threadLocal s => some s
    | _ => none

/-- The number of work units (non-barrier steps) of a schedule shape. -/
def countUnits (l : List Step) : Nat := l.countP isUnit

/-! ## Association-list lemmas -/

theorem alistGet_insert (m : Reg) (k k' : String) (v : List Sys) :
    alistGet (alistInsert m k v) k' = if k' = k then some v else alistGet m k' := by
  induction m with
  | nil =>
    by_cases hk : k' = k
    · subst hk; simp [alistInsert, alistGet]
    · simp [alistInsert, alistGet, hk, Ne.symm hk]
  | cons p rest ih =>
    obtain ⟨a, l⟩ := p
    by_cases hp : a = k
    · subst hp
      by_cases hk : k' = a
      · subst hk; simp [alistInsert, alistGet]
      · simp [alistInsert, alistGet, hk, Ne.symm hk]
    · by_cases ha : a = k'
      · subst ha
        simp [alistInsert, alistGet, hp, Ne.symm hp]
      · simp [alistInsert, alistGet, hp, ha, ih]

theorem alistGet_push (m : Reg) (k k' : String) (s : Sys) :
    alistGet (alistPush m k s) k'
      = if k' = k then (alistGet m k).map (fun l => l ++ [s]) else alistGet m k' := by
  induction m with
  | nil => by_cases hk : k' = k <;> simp [alistPush, alistGet, hk]
  | cons p rest ih =>
    obtain ⟨a, l⟩ := p
    by_cases hp : a = k
    · subst hp
      by_cases hk : k' = a
      · subst hk; simp [alistPush, alistGet]
      · simp [alistPush, alistGet, hk, Ne.symm hk]
    · by_cases ha : a = k'
      · subst ha
        simp [alistPush, alistGet, hp, Ne.symm hp]
      · simp [alistPush, alistGet, hp, ha, ih]

theorem keys_insert (m : Reg) (k : String) (v : List Sys) :
    (alistInsert m k v).map Prod.fst
      = if k ∈ m.map Prod.fst then m.map Prod.fst else m.map Prod.fst ++ [k] := by
  induction m with
  | nil => simp [alistInsert]
  | cons p rest ih =>
    obtain ⟨a, l⟩ := p
    by_cases hp : a = k
    · subst hp; simp [alistInsert]
    · by_cases hm : k ∈ rest.map Prod.fst <;>
        simp [alistInsert, hp, Ne.symm hp, hm, ih]

theorem keys_push (m : Reg) (k : String) (s : Sys) :
    (alistPush m k s).map Prod.fst = m.map Prod.fst := by
  induction m with
  | nil => simp [alistPush]
  | cons p rest ih =>
    by_cases h : p.1 = k <;> simp [alistPush, h, ih]

theorem alistGet_eq_none_iff (m : Reg) (k : String) :
    alistGet m k = none ↔ k ∉ m.map Prod.fst := by
  induction m with
  | nil => simp [alistGet]
  | cons p rest ih =>
    by_cases h : p.1 = k
    · subst h; simp [alistGet]
    · simp [alistGet, h, ih, Ne.symm h]

theorem alistGet_isSome_iff (m : Reg) (k : String) :
    (alistGet m k).isSome = true ↔ k ∈ m.map Prod.fst := by
  rw [← Decidable.not_iff_not, ← alistGet_eq_none_iff m k]
  simp [Option.isSome_iff_ne_none]

theorem alistRemoveEntry_fst (m : Reg) (k : String) :
    (alistRemoveEntry m k).1 = alistGet m k := by
  induction m with
  | nil => simp [alistRemoveEntry, alistGet]
  | cons p rest ih =>
    by_cases h : p.1 = k <;> simp [alistRemoveEntry, alistGet, h, ih]

theorem alistGet_removeEntry_ne (m : Reg) (k k' : String) (h : k' ≠ k) :
    alistGet (alistRemoveEntry m k).2 k' = alistGet m k' := by
  induction m with
  | nil => simp [alistRemoveEntry]
  | cons p rest ih =>
    obtain ⟨a, l⟩ := p
    by_cases hp : a = k
    · subst hp
      have : ¬a = k' := fun hh => h hh.symm
      simp [alistRemoveEntry, alistGet, this]
    · by_cases ha : a = k'
      · subst ha; simp [alistRemoveEntry, alistGet, hp]
      · simp [alistRemoveEntry, alistGet, hp, ha, ih]

theorem keys_removeEntry_sublist (m : Reg) (k : String) :
    ((alistRemoveEntry m k).2.map Prod.fst).Sublist (m.map Prod.fst) := by
  induction m with
  | nil => simp [alistRemoveEntry]
  | cons p rest ih =>
    by_cases h : p.1 = k
    · simp only [alistRemoveEntry, if_pos h, List.map_cons]
      exact List.sublist_cons_self p.1 (rest.map Prod.fst)
    · simp only [alistRemoveEntry, if_neg h, List.map_cons]
      exact ih.cons₂ p.1

theorem alistGet_removeEntry_self (m : Reg) (k : String)
    (hnd : (m.map Prod.fst).Nodup) :
    alistGet (alistRemoveEntry m k).2 k = none := by
  induction m with
  | nil => simp [alistRemoveEntry, alistGet]
  | cons p rest ih =>
    simp only [List.map_cons, List.nodup_cons] at hnd
    by_cases h : p.1 = k
    · simp only [alistRemoveEntry, h, if_pos rfl]
      rw [alistGet_eq_none_iff]
      exact h ▸ hnd.1
    · simp [alistRemoveEntry, alistGet, h, ih hnd.2]

theorem alistRemoveEntry_of_get_none (m : Reg) (k : String) (h : alistGet m k = none) :
    alistRemoveEntry m k = (none, m) := by
  induction m with
  | nil => simp [alistRemoveEntry]
  | cons p rest ih =>
    by_cases hp : p.1 = k
    · simp [alistGet, hp] at h
    · simp only [alistGet, if_neg hp] at h
      simp [alistRemoveEntry, hp, ih h]

theorem length_removeEntry (m : Reg) (k : String) :
    (alistRemoveEntry m k).2.length
      = if (alistGet m k).isSome then m.length - 1 else m.length := by
  induction m with
  | nil => simp [alistRemoveEntry, alistGet]
  | cons p rest ih =>
    by_cases h : p.1 = k
    · simp [alistRemoveEntry, alistGet, h]
    · simp only [alistRemoveEntry, if_neg h, alistGet, List.length_cons, ih]
      by_cases hs : (alistGet rest k).isSome = true
      · have hlen : 1 ≤ rest.length := by
          cases rest with
          | nil => simp [alistGet] at hs
          | cons q t => simp
        simp [hs]
        omega
      · simp [hs]

theorem totalLen_removeEntry (m : Reg) (k : String) :
    totalLen (alistRemoveEntry m k).2
      + (match alistGet m k with | some l => l.length | none => 0) = totalLen m := by
  induction m with
  | nil => simp [alistRemoveEntry, alistGet, totalLen]
  | cons p rest ih =>
    by_cases h : p.1 = k
    · simp [alistRemoveEntry, alistGet, h, totalLen]
      omega
    · simp only [alistRemoveEntry, if_neg h, alistGet, totalLen, List.map_cons, List.sum_cons]
      simp only [totalLen] at ih
      omega

theorem totalLen_push (m : Reg) (k : String) (s : Sys)
    (h : (alistGet m k).isSome) :
    totalLen (alistPush m k s) = totalLen m + 1 := by
  induction m with
  | nil => simp [alistGet] at h
  | cons p rest ih =>
    by_cases hp : p.1 = k
    · simp [alistPush, hp, totalLen]
      omega
    · simp only [alistGet, if_neg hp] at h
      simp only [alistPush, if_neg hp, totalLen, List.map_cons, List.sum_cons]
      simp only [totalLen] at ih
      rw [ih h]
      omega

theorem totalLen_insert_absent (m : Reg) (k : String) (v : List Sys)
    (h : alistGet m k = none) :
    totalLen (alistInsert m k v) = totalLen m + v.length := by
  induction m with
  | nil => simp [alistInsert, totalLen]
  | cons p rest ih =>
    by_cases hp : p.1 = k
    · simp [alistGet, hp] at h
    · simp only [alistGet, if_neg hp] at h
      simp only [alistInsert, if_neg hp, totalLen, List.map_cons, List.sum_cons]
      simp only [totalLen] at ih
      rw [ih h]
      omega

/-! ## First-seen-order lemmas -/

theorem firstSeenAux_congr [DecidableEq α] (s₁ s₂ l : List α)
    (h : ∀ a, a ∈ s₁ ↔ a ∈ s₂) : firstSeenAux s₁ l = firstSeenAux s₂ l := by
  induction l generalizing s₁ s₂ with
  | nil => rfl
  | cons x xs ih =>
    by_cases hx : x ∈ s₁
    · rw [firstSeenAux, if_pos hx, firstSeenAux, if_pos ((h x).mp hx)]
      exact ih s₁ s₂ h
    · have hx2 : x ∉ s₂ := fun hh => hx ((h x).mpr hh)
      rw [firstSeenAux, if_neg hx, firstSeenAux, if_neg hx2]
      congr 1
      exact ih (x :: s₁) (x :: s₂) (fun a => by simp [h a])

theorem mem_firstSeenAux [DecidableEq α] (s l : List α) (a : α) :
    a ∈ firstSeenAux s l ↔ a ∈ l ∧ a ∉ s := by
  induction l generalizing s with
  | nil => simp [firstSeenAux]
  | cons x xs ih =>
    by_cases hx : x ∈ s
    · rw [firstSeenAux, if_pos hx, ih]
      constructor
      · rintro ⟨h1, h2⟩
        exact ⟨List.mem_cons_of_mem x h1, h2⟩
      · rintro ⟨h1, h2⟩
        rcases List.mem_cons.mp h1 with h1 | h1
        · exact absurd (h1 ▸ hx) h2
        · exact ⟨h1, h2⟩
    · rw [firstSeenAux, if_neg hx]
      by_cases hax : a = x
      · subst hax
        simp [hx]
      · simp [List.mem_cons, hax, ih]

theorem nodup_firstSeenAux [DecidableEq α] (s l : List α) : (firstSeenAux s l).Nodup := by
  induction l generalizing s with
  | nil => simp [firstSeenAux]
  | cons x xs ih =>
    by_cases hx : x ∈ s
    · rw [firstSeenAux, if_pos hx]
      exact ih s
    · rw [firstSeenAux, if_neg hx]
      refine List.nodup_cons.mpr ⟨?_, ih _⟩
      rw [mem_firstSeenAux]
      rintro ⟨-, hmem⟩
      exact hmem (List.mem_cons_self x s)

theorem firstSeenAux_append_singleton [DecidableEq α] (s l : List α) (x : α) :
    firstSeenAux s (l ++ [x])
      = firstSeenAux s l ++ (if x ∈ s ∨ x ∈ l then [] else [x]) := by
  induction l generalizing s with
  | nil => by_cases hx : x ∈ s <;> simp [firstSeenAux, hx]
  | cons a as ih =>
    by_cases ha : a ∈ s
    · rw [List.cons_append, firstSeenAux, if_pos ha, firstSeenAux, if_pos ha, ih]
      congr 1
      refine if_congr ?_ rfl rfl
      constructor
      · rintro (h | h)
        · exact Or.inl h
        · exact Or.inr (List.mem_cons_of_mem a h)
      · rintro (h | h)
        · exact Or.inl h
        · rcases List.mem_cons.mp h with h | h
          · exact Or.inl (h ▸ ha)
          · exact Or.inr h
    · rw [List.cons_append, firstSeenAux, if_neg ha, firstSeenAux, if_neg ha, ih,
        List.cons_append]
      congr 2
      refine if_congr ?_ rfl rfl
      simp only [List.mem_cons]
      tauto

theorem mem_firstSeen [DecidableEq α] (l : List α) (a : α) : a ∈ firstSeen l ↔ a ∈ l := by
  rw [firstSeen, mem_firstSeenAux]
  simp

theorem nodup_firstSeen [DecidableEq α] (l : List α) : (firstSeen l).Nodup :=
  nodup_firstSeenAux [] l

theorem firstSeen_append_singleton [DecidableEq α] (l : List α) (x : α) :
    firstSeen (l ++ [x]) = firstSeen l ++ (if x ∈ l then [] else [x]) := by
  rw [firstSeen, firstSeenAux_append_singleton, firstSeen]
  congr 1
  refine if_congr ?_ rfl rfl
  simp

/-! ## Effect of a single registration call -/

theorem olist_append_singleton (rp : List Sys) (s : Sys) :
    olist (rp ++ [s]) = some ((olist rp).getD [] ++ [s]) := by
  cases rp <;> rfl

theorem get_sys_add_system_to_stage (b : AppBuilder) (m n : String) (s : Sys) :
    alistGet (b.add_system_to_stage m s).system_stages n
      = if m = n then some ((alistGet b.system_stages n).getD [] ++ [s])
        else alistGet b.system_stages n := by
  by_cases hmn : m = n
  · subst hmn
    by_cases hget : alistGet b.system_stages m = none
    · simp [AppBuilder.add_system_to_stage, hget, alistGet_push, alistGet_insert]
    · rcases Option.ne_none_iff_exists'.mp hget with ⟨l₀, hl⟩
      simp [AppBuilder.add_system_to_stage, hget, hl, alistGet_push]
  · have hnm : ¬n = m := fun h => hmn h.symm
    by_cases hget : alistGet b.system_stages m = none
    · simp [AppBuilder.add_system_to_stage, hget, alistGet_push, alistGet_insert, hmn, hnm]
    · simp [AppBuilder.add_system_to_stage, hget, alistGet_push, hmn, hnm]

theorem get_runn_add_runnable_to_stage (b : AppBuilder) (m n : String) (s : Sys) :
    alistGet (b.add_runnable_to_stage m s).runnable_stages n
      = if m = n then some ((alistGet b.runnable_stages n).getD [] ++ [s])
        else alistGet b.runnable_stages n := by
  by_cases hmn : m = n
  · subst hmn
    by_cases hget : alistGet b.runnable_stages m = none
    · simp [AppBuilder.add_runnable_to_stage, hget, alistGet_push, alistGet_insert]
    · rcases Option.ne_none_iff_exists'.mp hget with ⟨l₀, hl⟩
      simp [AppBuilder.add_runnable_to_stage, hget, hl, alistGet_push]
  · have hnm : ¬n = m := fun h => hmn h.symm
    by_cases hget : alistGet b.runnable_stages m = none
    · simp [AppBuilder.add_runnable_to_stage, hget, alistGet_push, alistGet_insert, hmn, hnm]
    · simp [AppBuilder.add_runnable_to_stage, hget, alistGet_push, hmn, hnm]

theorem keys_sys_add_system_to_stage (b : AppBuilder) (m : String) (s : Sys) :
    (b.add_system_to_stage m s).system_stages.map Prod.fst
      = if alistGet b.system_stages m = none then b.system_stages.map Prod.fst ++ [m]
        else b.system_stages.map Prod.fst := by
  by_cases hget : alistGet b.system_stages m = none
  · simp [AppBuilder.add_system_to_stage, hget, keys_push, keys_insert,
      (alistGet_eq_none_iff b.system_stages m).mp hget]
  · simp [AppBuilder.add_system_to_stage, hget, keys_push]

theorem keys_runn_add_runnable_to_stage (b : AppBuilder) (m : String) (s : Sys) :
    (b.add_runnable_to_stage m s).runnable_stages.map Prod.fst
      = if alistGet b.runnable_stages m = none then b.runnable_stages.map Prod.fst ++ [m]
        else b.runnable_stages.map Prod.fst := by
  by_cases hget : alistGet b.runnable_stages m = none
  · simp [AppBuilder.add_runnable_to_stage, hget, keys_push, keys_insert,
      (alistGet_eq_none_iff b.runnable_stages m).mp hget]
  · simp [AppBuilder.add_runnable_to_stage, hget, keys_push]

theorem order_add_system_to_stage (b : AppBuilder) (m : String) (s : Sys) :
    (b.add_system_to_stage m s).stage_order
      = b.stage_order ++ (if alistGet b.system_stages m = none then [m] else []) := by
  by_cases hget : alistGet b.system_stages m = none <;>
    simp [AppBuilder.add_system_to_stage, hget]

theorem order_add_runnable_to_stage (b : AppBuilder) (m : String) (s : Sys) :
    (b.add_runnable_to_stage m s).stage_order
      = b.stage_order ++ (if alistGet b.runnable_stages m = none then [m] else []) := by
  by_cases hget : alistGet b.runnable_stages m = none <;>
    simp [AppBuilder.add_runnable_to_stage, hget]

theorem sys_add_runnable_to_stage (b : AppBuilder) (m : String) (s : Sys) :
    (b.add_runnable_to_stage m s).system_stages = b.system_stages := by
  by_cases hget : alistGet b.runnable_stages m = none <;>
    simp [AppBuilder.add_runnable_to_stage, hget]

theorem runn_add_system_to_stage (b : AppBuilder) (m : String) (s : Sys) :
    (b.add_system_to_stage m s).runnable_stages = b.runnable_stages := by
  by_cases hget : alistGet b.system_stages m = none <;>
    simp [AppBuilder.add_system_to_stage, hget]

theorem setup_add_system_to_stage (b : AppBuilder) (m : String) (s : Sys) :
    (b.add_system_to_stage m s).setup_systems = b.setup_systems := by
  by_cases hget : alistGet b.system_stages m = none <;>
    simp [AppBuilder.add_system_to_stage, hget]

theorem setup_add_runnable_to_stage (b : AppBuilder) (m : String) (s : Sys) :
    (b.add_runnable_to_stage m s).setup_systems = b.setup_systems := by
  by_cases hget : alistGet b.runnable_stages m = none <;>
    simp [AppBuilder.add_runnable_to_stage, hget]

theorem applyOp_slots (b : AppBuilder) (op : RegOp) :
    (applyOp b op).world = b.world ∧ (applyOp b op).resources = b.resources ∧
    (applyOp b op).univ = b.univ ∧ (applyOp b op).renderer = b.renderer ∧
    (applyOp b op).render_graph = b.render_graph := by
  cases op <;>
    refine ⟨?_, ?_, ?_, ?_, ?_⟩ <;>
    simp [applyOp, AppBuilder.add_system, AppBuilder.add_system_to_stage,
      AppBuilder.add_runnable_to_stage, AppBuilder.add_setup_system, apply_ite]

/-! ## Characterization of a registration sequence applied to a fresh builder -/

theorem applyOps_snoc (b : AppBuilder) (l : List RegOp) (op : RegOp) :
    applyOps b (l ++ [op]) = applyOp (applyOps b l) op := by
  simp [applyOps, List.foldl_append]

theorem slots_applyOps (b : AppBuilder) (ops : List RegOp) :
    (applyOps b ops).world = b.world ∧ (applyOps b ops).resources = b.resources ∧
    (applyOps b ops).univ = b.univ ∧ (applyOps b ops).renderer = b.renderer ∧
    (applyOps b ops).render_graph = b.render_graph := by
  induction ops using List.reverseRecOn with
  | nil => exact ⟨rfl, rfl, rfl, rfl, rfl⟩
  | append_singleton l op ih =>
    rw [applyOps_snoc]
    have h := applyOp_slots (applyOps b l) op
    exact ⟨h.1.trans ih.1, h.2.1.trans ih.2.1, h.2.2.1.trans ih.2.2.1,
      h.2.2.2.1.trans ih.2.2.2.1, h.2.2.2.2.trans ih.2.2.2.2⟩

theorem setup_applyOps (b : AppBuilder) (ops : List RegOp) :
    (applyOps b ops).setup_systems = b.setup_systems ++ setupOf ops := by
  induction ops using List.reverseRecOn with
  | nil => simp [applyOps, setupOf]
  | append_singleton l op ih =>
    rw [applyOps_snoc]
    cases op with
    | addSystem s =>
      simp only [applyOp, AppBuilder.add_system]
      rw [setup_add_system_to_stage, ih]
      simp [setupOf, List.filterMap_append]
    | addSetupSystem s =>
      simp only [applyOp, AppBuilder.add_setup_system]
      rw [ih]
      simp [setupOf, List.filterMap_append]
    | addSystemToStage m s =>
      simp only [applyOp]
      rw [setup_add_system_to_stage, ih]
      simp [setupOf, List.filterMap_append]
    | addRunnableToStage m s =>
      simp only [applyOp]
      rw [setup_add_runnable_to_stage, ih]
      simp [setupOf, List.filterMap_append]

theorem sys_get_applyOps (ops : List RegOp) (n : String) :
    alistGet (applyOps AppBuilder.new ops).system_stages n = olist (registeredPar ops n) := by
  induction ops using List.reverseRecOn with
  | nil => rfl
  | append_singleton l op ih =>
    rw [applyOps_snoc]
    cases op with
    | addSystem s =>
      simp only [applyOp, AppBuilder.add_system]
      rw [get_sys_add_system_to_stage]
      by_cases h : system_stage.UPDATE = n
      · rw [if_pos h]
        have hreg : registeredPar (l ++ [RegOp.addSystem s]) n = registeredPar l n ++ [s] := by
          simp [registeredPar, List.filterMap_append, h]
        rw [hreg, olist_append_singleton, ih]
      · rw [if_neg h]
        have hreg : registeredPar (l ++ [RegOp.addSystem s]) n = registeredPar l n := by
          simp [registeredPar, List.filterMap_append, h]
        rw [hreg, ih]
    | addSystemToStage m s =>
      simp only [applyOp]
      rw [get_sys_add_system_to_stage]
      by_cases h : m = n
      · rw [if_pos h]
        have hreg : registeredPar (l ++ [RegOp.addSystemToStage m s]) n
            = registeredPar l n ++ [s] := by
          simp [registeredPar, List.filterMap_append, h]
        rw [hreg, olist_append_singleton, ih]
      · rw [if_neg h]
        have hreg : registeredPar (l ++ [RegOp.addSystemToStage m s]) n = registeredPar l n := by
          simp [registeredPar, List.filterMap_append, h]
        rw [hreg, ih]
    | addSetupSystem s =>
      simp only [applyOp, AppBuilder.add_setup_system]
      have hreg : registeredPar (l ++ [RegOp.addSetupSystem s]) n = registeredPar l n := by
        simp [registeredPar, List.filterMap_append]
      rw [hreg]
      exact ih
    | addRunnableToStage m s =>
      simp only [applyOp]
      rw [sys_add_runnable_to_stage]
      have hreg : registeredPar (l ++ [RegOp.addRunnableToStage m s]) n = registeredPar l n := by
        simp [registeredPar, List.filterMap_append]
      rw [hreg]
      exact ih

theorem runn_get_applyOps (ops : List RegOp) (n : String) :
    alistGet (applyOps AppBuilder.new ops).runnable_stages n = olist (registeredExc ops n) := by
  induction ops using List.reverseRecOn with
  | nil => rfl
  | append_singleton l op ih =>
    rw [applyOps_snoc]
    cases op with
    | addSystem s =>
      simp only [applyOp, AppBuilder.add_system]
      rw [runn_add_system_to_stage]
      have hreg : registeredExc (l ++ [RegOp.addSystem s]) n = registeredExc l n := by
        simp [registeredExc, List.filterMap_append]
      rw [hreg]
      exact ih
    | addSystemToStage m s =>
      simp only [applyOp]
      rw [runn_add_system_to_stage]
      have hreg : registeredExc (l ++ [RegOp.addSystemToStage m s]) n = registeredExc l n := by
        simp [registeredExc, List.filterMap_append]
      rw [hreg]
      exact ih
    | addSetupSystem s =>
      simp only [applyOp, AppBuilder.add_setup_system]
      have hreg : registeredExc (l ++ [RegOp.addSetupSystem s]) n = registeredExc l n := by
        simp [registeredExc, List.filterMap_append]
      rw [hreg]
      exact ih
    | addRunnableToStage m s =>
      simp only [applyOp]
      rw [get_runn_add_runnable_to_stage]
      by_cases h : m = n
      · rw [if_pos h]
        have hreg : registeredExc (l ++ [RegOp.addRunnableToStage m s]) n
            = registeredExc l n ++ [s] := by
          simp [registeredExc, List.filterMap_append, h]
        rw [hreg, olist_append_singleton, ih]
      · rw [if_neg h]
        have hreg : registeredExc (l ++ [RegOp.addRunnableToStage m s]) n = registeredExc l n := by
          simp [registeredExc, List.filterMap_append, h]
        rw [hreg, ih]

theorem mem_parName_iff_stageKeys (ops : List RegOp) (n : String) :
    n ∈ ops.filterMap parName ↔ (false, n) ∈ ops.filterMap stageKey := by
  induction ops with
  | nil => simp
  | cons op rest ih =>
    cases op <;> simp [parName, excName, stageKey, List.filterMap_cons, ih, Prod.ext_iff]

theorem mem_excName_iff_stageKeys (ops : List RegOp) (n : String) :
    n ∈ ops.filterMap excName ↔ (true, n) ∈ ops.filterMap stageKey := by
  induction ops with
  | nil => simp
  | cons op rest ih =>
    cases op <;> simp [parName, excName, stageKey, List.filterMap_cons, ih, Prod.ext_iff]

theorem sys_keys_applyOps (ops : List RegOp) :
    (applyOps AppBuilder.new ops).system_stages.map Prod.fst
      = firstSeen (ops.filterMap parName) := by
  induction ops using List.reverseRecOn with
  | nil => rfl
  | append_singleton l op ih =>
    rw [applyOps_snoc]
    cases op with
    | addSystem s =>
      simp only [applyOp, AppBuilder.add_system]
      rw [keys_sys_add_system_to_stage]
      have hfm : (l ++ [RegOp.addSystem s]).filterMap parName
          = l.filterMap parName ++ [system_stage.UPDATE] := by
        simp [parName, List.filterMap_append]
      rw [hfm, firstSeen_append_singleton]
      by_cases h : system_stage.UPDATE ∈ l.filterMap parName
      · have hmem : system_stage.UPDATE
            ∈ (applyOps AppBuilder.new l).system_stages.map Prod.fst := by
          rw [ih, mem_firstSeen]
          exact h
        have hne : ¬alistGet (applyOps AppBuilder.new l).system_stages system_stage.UPDATE
            = none := by
          rw [alistGet_eq_none_iff]
          simp [hmem]
        rw [if_neg hne, if_pos h, ih]
        simp
      · have hnone : alistGet (applyOps AppBuilder.new l).system_stages system_stage.UPDATE
            = none := by
          rw [alistGet_eq_none_iff, ih, mem_firstSeen]
          exact h
        rw [if_pos hnone, if_neg h, ih]
    | addSystemToStage m s =>
      simp only [applyOp]
      rw [keys_sys_add_system_to_stage]
      have hfm : (l ++ [RegOp.addSystemToStage m s]).filterMap parName
          = l.filterMap parName ++ [m] := by
        simp [parName, List.filterMap_append]
      rw [hfm, firstSeen_append_singleton]
      by_cases h : m ∈ l.filterMap parName
      · have hmem : m ∈ (applyOps AppBuilder.new l).system_stages.map Prod.fst := by
          rw [ih, mem_firstSeen]
          exact h
        have hne : ¬alistGet (applyOps AppBuilder.new l).system_stages m = none := by
          rw [alistGet_eq_none_iff]
          simp [hmem]
        rw [if_neg hne, if_pos h, ih]
        simp
      · have hnone : alistGet (applyOps AppBuilder.new l).system_stages m = none := by
          rw [alistGet_eq_none_iff, ih, mem_firstSeen]
          exact h
        rw [if_pos hnone, if_neg h, ih]
    | addSetupSystem s =>
      simp only [applyOp, AppBuilder.add_setup_system]
      have hfm : (l ++ [RegOp.addSetupSystem s]).filterMap parName = l.filterMap parName := by
        simp [parName, List.filterMap_append]
      rw [hfm]
      exact ih
    | addRunnableToStage m s =>
      simp only [applyOp]
      rw [sys_add_runnable_to_stage]
      have hfm : (l ++ [RegOp.addRunnableToStage m s]).filterMap parName
          = l.filterMap parName := by
        simp [parName, List.filterMap_append]
      rw [hfm]
      exact ih

theorem runn_keys_applyOps (ops : List RegOp) :
    (applyOps AppBuilder.new ops).runnable_stages.map Prod.fst
      = firstSeen (ops.filterMap excName) := by
  induction ops using List.reverseRecOn with
  | nil => rfl
  | append_singleton l op ih =>
    rw [applyOps_snoc]
    cases op with
    | addSystem s =>
      simp only [applyOp, AppBuilder.add_system]
      rw [runn_add_system_to_stage]
      have hfm : (l ++ [RegOp.addSystem s]).filterMap excName = l.filterMap excName := by
        simp [excName, List.filterMap_append]
      rw [hfm]
      exact ih
    | addSystemToStage m s =>
      simp only [applyOp]
      rw [runn_add_system_to_stage]
      have hfm : (l ++ [RegOp.addSystemToStage m s]).filterMap excName
          = l.filterMap excName := by
        simp [excName, List.filterMap_append]
      rw [hfm]
      exact ih
    | addSetupSystem s =>
      simp only [applyOp, AppBuilder.add_setup_system]
      have hfm : (l ++ [RegOp.addSetupSystem s]).filterMap excName = l.filterMap excName := by
        simp [excName, List.filterMap_append]
      rw [hfm]
      exact ih
    | addRunnableToStage m s =>
      simp only [applyOp]
      rw [keys_runn_add_runnable_to_stage]
      have hfm : (l ++ [RegOp.addRunnableToStage m s]).filterMap excName
          = l.filterMap excName ++ [m] := by
        simp [excName, List.filterMap_append]
      rw [hfm, firstSeen_append_singleton]
      by_cases h : m ∈ l.filterMap excName
      · have hmem : m ∈ (applyOps AppBuilder.new l).runnable_stages.map Prod.fst := by
          rw [ih, mem_firstSeen]
          exact h
        have hne : ¬alistGet (applyOps AppBuilder.new l).runnable_stages m = none := by
          rw [alistGet_eq_none_iff]
          simp [hmem]
        rw [if_neg hne, if_pos h, ih]
        simp
      · have hnone : alistGet (applyOps AppBuilder.new l).runnable_stages m = none := by
          rw [alistGet_eq_none_iff, ih, mem_firstSeen]
          exact h
        rw [if_pos hnone, if_neg h, ih]

theorem stage_order_applyOps (ops : List RegOp) :
    (applyOps AppBuilder.new ops).stage_order
      = (firstSeen (ops.filterMap stageKey)).map Prod.snd := by
  induction ops using List.reverseRecOn with
  | nil => rfl
  | append_singleton l op ih =>
    rw [applyOps_snoc]
    cases op with
    | addSystem s =>
      simp only [applyOp, AppBuilder.add_system]
      rw [order_add_system_to_stage]
      have hfm : (l ++ [RegOp.addSystem s]).filterMap stageKey
          = l.filterMap stageKey ++ [(false, system_stage.UPDATE)] := by
        simp [stageKey, List.filterMap_append]
      rw [hfm, firstSeen_append_singleton]
      by_cases h : (false, system_stage.UPDATE) ∈ l.filterMap stageKey
      · have hne : ¬alistGet (applyOps AppBuilder.new l).system_stages system_stage.UPDATE
            = none := by
          rw [alistGet_eq_none_iff, sys_keys_applyOps, mem_firstSeen]
          simp [(mem_parName_iff_stageKeys l system_stage.UPDATE).mpr h]
        rw [if_neg hne, if_pos h, ih]
        simp
      · have hnone : alistGet (applyOps AppBuilder.new l).system_stages system_stage.UPDATE
            = none := by
          rw [alistGet_eq_none_iff, sys_keys_applyOps, mem_firstSeen,
            mem_parName_iff_stageKeys]
          exact h
        rw [if_pos hnone, if_neg h, ih]
        simp
    | addSystemToStage m s =>
      simp only [applyOp]
      rw [order_add_system_to_stage]
      have hfm : (l ++ [RegOp.addSystemToStage m s]).filterMap stageKey
          = l.filterMap stageKey ++ [(false, m)] := by
        simp [stageKey, List.filterMap_append]
      rw [hfm, firstSeen_append_singleton]
      by_cases h : (false, m) ∈ l.filterMap stageKey
      · have hne : ¬alistGet (applyOps AppBuilder.new l).system_stages m = none := by
          rw [alistGet_eq_none_iff, sys_keys_applyOps, mem_firstSeen]
          simp [(mem_parName_iff_stageKeys l m).mpr h]
        rw [if_neg hne, if_pos h, ih]
        simp
      · have hnone : alistGet (applyOps AppBuilder.new l).system_stages m = none := by
          rw [alistGet_eq_none_iff, sys_keys_applyOps, mem_firstSeen,
            mem_parName_iff_stageKeys]
          exact h
        rw [if_pos hnone, if_neg h, ih]
        simp
    | addSetupSystem s =>
      simp only [applyOp, AppBuilder.add_setup_system]
      have hfm : (l ++ [RegOp.addSetupSystem s]).filterMap stageKey = l.filterMap stageKey := by
        simp [stageKey, List.filterMap_append]
      rw [hfm]
      exact ih
    | addRunnableToStage m s =>
      simp only [applyOp]
      rw [order_add_runnable_to_stage]
      have hfm : (l ++ [RegOp.addRunnableToStage m s]).filterMap stageKey
          = l.filterMap stageKey ++ [(true, m)] := by
        simp [stageKey, List.filterMap_append]
      rw [hfm, firstSeen_append_singleton]
      by_cases h : (true, m) ∈ l.filterMap stageKey
      · have hne : ¬alistGet (applyOps AppBuilder.new l).runnable_stages m = none := by
          rw [alistGet_eq_none_iff, runn_keys_applyOps, mem_firstSeen]
          simp [(mem_excName_iff_stageKeys l m).mpr h]
        rw [if_neg hne, if_pos h, ih]
        simp
      · have hnone : alistGet (applyOps AppBuilder.new l).runnable_stages m = none := by
          rw [alistGet_eq_none_iff, runn_keys_applyOps, mem_firstSeen,
            mem_excName_iff_stageKeys]
          exact h
        rw [if_pos hnone, if_neg h, ih]
        simp

/-! ## Drain-loop lemmas -/

theorem reg_eq_nil_of_keys_sub_nil (m : Reg)
    (h : ∀ x ∈ m.map Prod.fst, x ∈ ([] : List String)) : m = [] := by
  cases m with
  | nil => rfl
  | cons p rest => exact absurd (h p.1 (by simp)) (by simp)

theorem nodup_keys_removeEntry (m : Reg) (k : String) (hnd : (m.map Prod.fst).Nodup) :
    ((alistRemoveEntry m k).2.map Prod.fst).Nodup :=
  (keys_removeEntry_sublist m k).nodup hnd

theorem keys_removeEntry_sub (sys : Reg) (n : String) (rest : List String)
    (hnd : (sys.map Prod.fst).Nodup)
    (hsub : ∀ x ∈ sys.map Prod.fst, x ∈ n :: rest) :
    ∀ x ∈ (alistRemoveEntry sys n).2.map Prod.fst, x ∈ rest := by
  intro x hx
  have hxs : x ∈ sys.map Prod.fst := (keys_removeEntry_sublist sys n).subset hx
  have hxn : x ≠ n := by
    intro he
    subst he
    have hnone : alistGet (alistRemoveEntry sys x).2 x = none :=
      alistGet_removeEntry_self sys x hnd
    rw [alistGet_eq_none_iff] at hnone
    exact hnone hx
  rcases List.mem_cons.mp (hsub x hxs) with h | h
  · exact absurd h hxn
  · exact h

theorem get_removeEntry_none (m : Reg) (k k' : String) (h : alistGet m k' = none) :
    alistGet (alistRemoveEntry m k).2 k' = none := by
  by_cases he : k' = k
  · subst he
    rw [alistRemoveEntry_of_get_none m k' h]
    exact h
  · rw [alistGet_removeEntry_ne m k k' he]
    exact h

theorem countP_isUnit_system (l : List Sys) :
    List.countP isUnit (l.map Step.system) = l.length := by
  rw [List.countP_map]
  simp [isUnit, Function.comp]

theorem countP_isUnit_threadLocal (l : List Sys) :
    List.countP isUnit (l.map Step.threadLocal) = l.length := by
  rw [List.countP_map]
  simp [isUnit, Function.comp]

theorem totalLen_removeEntry_some (m : Reg) (k : String) (l : List Sys)
    (h : alistGet m k = some l) :
    totalLen (alistRemoveEntry m k).2 + l.length = totalLen m := by
  have hh := totalLen_removeEntry m k
  rw [h] at hh
  exact hh

theorem totalLen_removeEntry_none (m : Reg) (k : String) (h : alistGet m k = none) :
    totalLen (alistRemoveEntry m k).2 = totalLen m := by
  have hh := totalLen_removeEntry m k
  rw [h] at hh
  exact hh

theorem drain_countUnits (order : List String) (sys runn : Reg)
    (hnd1 : (sys.map Prod.fst).Nodup) (hnd2 : (runn.map Prod.fst).Nodup)
    (hsub1 : ∀ x ∈ sys.map Prod.fst, x ∈ order)
    (hsub2 : ∀ x ∈ runn.map Prod.fst, x ∈ order) :
    countUnits (drainStages sys runn order).1 = totalLen sys + totalLen runn := by
  induction order generalizing sys runn with
  | nil =>
    rw [reg_eq_nil_of_keys_sub_nil sys hsub1, reg_eq_nil_of_keys_sub_nil runn hsub2]
    rfl
  | cons n rest ih =>
    have hrec := ih (alistRemoveEntry sys n).2 (alistRemoveEntry runn n).2
      (nodup_keys_removeEntry sys n hnd1) (nodup_keys_removeEntry runn n hnd2)
      (keys_removeEntry_sub sys n rest hnd1 hsub1)
      (keys_removeEntry_sub runn n rest hnd2 hsub2)
    have hf : List.countP isUnit [Step.flush] = 0 := rfl
    simp only [drainStages, alistRemoveEntry_fst]
    cases hget1 : alistGet sys n with
    | none =>
      have ht1 := totalLen_removeEntry_none sys n hget1
      cases hget2 : alistGet runn n with
      | none =>
        have ht2 := totalLen_removeEntry_none runn n hget2
        simp only [countUnits, List.countP_append, List.countP_nil] at hrec ⊢
        omega
      | some l2 =>
        have ht2 := totalLen_removeEntry_some runn n l2 hget2
        simp only [countUnits, List.countP_append, List.countP_nil,
          countP_isUnit_threadLocal, hf] at hrec ⊢
        omega
    | some l1 =>
      have ht1 := totalLen_removeEntry_some sys n l1 hget1
      cases hget2 : alistGet runn n with
      | none =>
        have ht2 := totalLen_removeEntry_none runn n hget2
        simp only [countUnits, List.countP_append, List.countP_nil,
          countP_isUnit_system, hf] at hrec ⊢
        omega
      | some l2 =>
        have ht2 := totalLen_removeEntry_some runn n l2 hget2
        simp only [countUnits, List.countP_append, List.countP_nil,
          countP_isUnit_system, countP_isUnit_threadLocal, hf] at hrec ⊢
        omega

theorem length_removeEntry_some (m : Reg) (k : String) (l : List Sys)
    (h : alistGet m k = some l) :
    (alistRemoveEntry m k).2.length + 1 = m.length := by
  have hh := length_removeEntry m k
  rw [h] at hh
  simp at hh
  have hmem : k ∈ m.map Prod.fst := by
    rw [← alistGet_isSome_iff, h]
    rfl
  have hpos : 0 < m.length := by
    cases m with
    | nil => simp at hmem
    | cons p t => simp
  omega

theorem count_flush_map_system (l : List Sys) :
    (l.map Step.system).count Step.flush = 0 := by
  rw [List.count_eq_zero]
  intro hmem
  rcases List.mem_map.mp hmem with ⟨s, -, hs⟩
  exact Step.noConfusion hs

theorem count_flush_map_threadLocal (l : List Sys) :
    (l.map Step.threadLocal).count Step.flush = 0 := by
  rw [List.count_eq_zero]
  intro hmem
  rcases List.mem_map.mp hmem with ⟨s, -, hs⟩
  exact Step.noConfusion hs

theorem count_flush_single : [Step.flush].count Step.flush = 1 := rfl

theorem drain_flushCount (order : List String) (sys runn : Reg)
    (hnd1 : (sys.map Prod.fst).Nodup) (hnd2 : (runn.map Prod.fst).Nodup)
    (hsub1 : ∀ x ∈ sys.map Prod.fst, x ∈ order)
    (hsub2 : ∀ x ∈ runn.map Prod.fst, x ∈ order) :
    ((drainStages sys runn order).1).count Step.flush = sys.length + runn.length := by
  induction order generalizing sys runn with
  | nil =>
    rw [reg_eq_nil_of_keys_sub_nil sys hsub1, reg_eq_nil_of_keys_sub_nil runn hsub2]
    rfl
  | cons n rest ih =>
    have hrec := ih (alistRemoveEntry sys n).2 (alistRemoveEntry runn n).2
      (nodup_keys_removeEntry sys n hnd1) (nodup_keys_removeEntry runn n hnd2)
      (keys_removeEntry_sub sys n rest hnd1 hsub1)
      (keys_removeEntry_sub runn n rest hnd2 hsub2)
    simp only [drainStages, alistRemoveEntry_fst]
    cases hget1 : alistGet sys n with
    | none =>
      have hl1 : (alistRemoveEntry sys n).2.length = sys.length := by
        rw [alistRemoveEntry_of_get_none sys n hget1]
      cases hget2 : alistGet runn n with
      | none =>
        have hl2 : (alistRemoveEntry runn n).2.length = runn.length := by
          rw [alistRemoveEntry_of_get_none runn n hget2]
        simp only [List.count_append, List.count_nil, List.nil_append] at hrec ⊢
        omega
      | some l2 =>
        have hl2 := length_removeEntry_some runn n l2 hget2
        simp only [List.count_append, List.count_nil, count_flush_map_threadLocal,
          count_flush_single] at hrec ⊢
        omega
    | some l1 =>
      have hl1 := length_removeEntry_some sys n l1 hget1
      cases hget2 : alistGet runn n with
      | none =>
        have hl2 : (alistRemoveEntry runn n).2.length = runn.length := by
          rw [alistRemoveEntry_of_get_none runn n hget2]
        simp only [List.count_append, List.count_nil, count_flush_map_system,
          count_flush_single] at hrec ⊢
        omega
      | some l2 =>
        have hl2 := length_removeEntry_some runn n l2 hget2
        simp only [List.count_append, List.count_nil, count_flush_map_system,
          count_flush_map_threadLocal, count_flush_single] at hrec ⊢
        omega

theorem parUnits_append (l₁ l₂ : List Step) :
    parUnits (l₁ ++ l₂) = parUnits l₁ ++ parUnits l₂ := by
  simp [parUnits, List.filterMap_append]

theorem excUnits_append (l₁ l₂ : List Step) :
    excUnits (l₁ ++ l₂) = excUnits l₁ ++ excUnits l₂ := by
  simp [excUnits, List.filterMap_append]

theorem parUnits_system_block (l : List Sys) :
    parUnits (l.map Step.system ++ [Step.flush]) = l := by
  rw [parUnits_append]
  have h1 : parUnits (l.map Step.system) = l := by
    rw [parUnits, List.filterMap_map,
      show ((fun st : Step => match st with | Step.system s => some s | _ => none)
        ∘ Step.system) = some from rfl]
    exact List.filterMap_some l
  have h2 : parUnits [Step.flush] = [] := rfl
  rw [h1, h2, List.append_nil]

theorem parUnits_threadLocal_block (l : List Sys) :
    parUnits (l.map Step.threadLocal ++ [Step.flush]) = [] := by
  rw [parUnits_append]
  have h1 : parUnits (l.map Step.threadLocal) = [] := by
    rw [parUnits, List.filterMap_map,
      show ((fun st : Step => match st with | Step.system s => some s | _ => none)
        ∘ Step.threadLocal) = (fun _ => none) from rfl]
    simp
  rw [h1]
  rfl

theorem excUnits_system_block (l : List Sys) :
    excUnits (l.map Step.system ++ [Step.flush]) = [] := by
  rw [excUnits_append]
  have h1 : excUnits (l.map Step.system) = [] := by
    rw [excUnits, List.filterMap_map,
      show ((fun st : Step => match st with | Step.threadLocal s => some s | _ => none)
        ∘ Step.system) = (fun _ => none) from rfl]
    simp
  rw [h1]
  rfl

theorem excUnits_threadLocal_block (l : List Sys) :
    excUnits (l.map Step.threadLocal ++ [Step.flush]) = l := by
  rw [excUnits_append]
  have h1 : excUnits (l.map Step.threadLocal) = l := by
    rw [excUnits, List.filterMap_map,
      show ((fun st : Step => match st with | Step.threadLocal s => some s | _ => none)
        ∘ Step.threadLocal) = some from rfl]
    exact List.filterMap_some l
  have h2 : excUnits [Step.flush] = [] := rfl
  rw [h1, h2, List.append_nil]

theorem parUnits_map_system (l : List Sys) : parUnits (l.map Step.system) = l := by
  rw [parUnits, List.filterMap_map,
    show ((fun st : Step => match st with | Step.system s => some s | _ => none)
      ∘ Step.system) = some from rfl]
  exact List.filterMap_some l

theorem parUnits_map_threadLocal (l : List Sys) : parUnits (l.map Step.threadLocal) = [] := by
  rw [parUnits, List.filterMap_map,
    show ((fun st : Step => match st with | Step.system s => some s | _ => none)
      ∘ Step.threadLocal) = (fun _ => none) from rfl]
  simp

theorem excUnits_map_system (l : List Sys) : excUnits (l.map Step.system) = [] := by
  rw [excUnits, List.filterMap_map,
    show ((fun st : Step => match st with | Step.threadLocal s => some s | _ => none)
      ∘ Step.system) = (fun _ => none) from rfl]
  simp

theorem excUnits_map_threadLocal (l : List Sys) : excUnits (l.map Step.threadLocal) = l := by
  rw [excUnits, List.filterMap_map,
    show ((fun st : Step => match st with | Step.threadLocal s => some s | _ => none)
      ∘ Step.threadLocal) = some from rfl]
  exact List.filterMap_some l

theorem parUnits_flush : parUnits [Step.flush] = [] := rfl

theorem excUnits_flush : excUnits [Step.flush] = [] := rfl

theorem parUnits_nil : parUnits [] = [] := rfl

theorem excUnits_nil : excUnits [] = [] := rfl

theorem infix_of_infix_right (y : List Sys) (x z : List Sys) (h : x <:+: z) :
    x <:+: y ++ z := by
  obtain ⟨u, v, huv⟩ := h
  exact ⟨y ++ u, v, by simp [List.append_assoc, huv]⟩

theorem drain_par_infix (order : List String) (sys runn : Reg) (n : String) (l : List Sys)
    (hnd : (sys.map Prod.fst).Nodup)
    (hsub : ∀ x ∈ sys.map Prod.fst, x ∈ order)
    (hget : alistGet sys n = some l) :
    l <:+: parUnits (drainStages sys runn order).1 := by
  induction order generalizing sys runn with
  | nil =>
    rw [reg_eq_nil_of_keys_sub_nil sys hsub] at hget
    exact Option.noConfusion hget
  | cons m rest ih =>
    simp only [drainStages, alistRemoveEntry_fst]
    by_cases hmn : m = n
    · subst hmn
      rw [hget]
      cases hget2 : alistGet runn m <;>
        simp only [parUnits_append, parUnits_map_system, parUnits_map_threadLocal,
          parUnits_flush, parUnits_nil, List.append_nil, List.nil_append] <;>
        exact (List.prefix_append l _).isInfix
    · have hnm : n ≠ m := fun h => hmn h.symm
      have hget' : alistGet (alistRemoveEntry sys m).2 n = some l := by
        rw [alistGet_removeEntry_ne sys m n hnm]
        exact hget
      have htail := ih (alistRemoveEntry sys m).2 (alistRemoveEntry runn m).2
        (nodup_keys_removeEntry sys m hnd) (keys_removeEntry_sub sys m rest hnd hsub) hget'
      cases hget1 : alistGet sys m <;> cases hget2 : alistGet runn m <;>
        simp only [parUnits_append, parUnits_map_system, parUnits_map_threadLocal,
          parUnits_flush, parUnits_nil, List.append_nil, List.nil_append] <;>
        first
        | exact htail
        | exact infix_of_infix_right _ _ _ htail

theorem drain_exc_infix (order : List String) (sys runn : Reg) (n : String) (l : List Sys)
    (hnd : (runn.map Prod.fst).Nodup)
    (hsub : ∀ x ∈ runn.map Prod.fst, x ∈ order)
    (hget : alistGet runn n = some l) :
    l <:+: excUnits (drainStages sys runn order).1 := by
  induction order generalizing sys runn with
  | nil =>
    rw [reg_eq_nil_of_keys_sub_nil runn hsub] at hget
    exact Option.noConfusion hget
  | cons m rest ih =>
    simp only [drainStages, alistRemoveEntry_fst]
    by_cases hmn : m = n
    · subst hmn
      rw [hget]
      cases hget1 : alistGet sys m <;>
        simp only [excUnits_append, excUnits_map_system, excUnits_map_threadLocal,
          excUnits_flush, excUnits_nil, List.append_nil, List.nil_append] <;>
        exact (List.prefix_append l _).isInfix
    · have hnm : n ≠ m := fun h => hmn h.symm
      have hget' : alistGet (alistRemoveEntry runn m).2 n = some l := by
        rw [alistGet_removeEntry_ne runn m n hnm]
        exact hget
      have htail := ih (alistRemoveEntry sys m).2 (alistRemoveEntry runn m).2
        (nodup_keys_removeEntry runn m hnd) (keys_removeEntry_sub runn m rest hnd hsub) hget'
      cases hget1 : alistGet sys m <;> cases hget2 : alistGet runn m <;>
        simp only [excUnits_append, excUnits_map_system, excUnits_map_threadLocal,
          excUnits_flush, excUnits_nil, List.append_nil, List.nil_append] <;>
        first
        | exact htail
        | exact infix_of_infix_right _ _ _ htail

theorem drain_final_sys_get_none (order : List String) (sys runn : Reg) (k : String)
    (h : alistGet sys k = none) :
    alistGet (drainStages sys runn order).2.1 k = none := by
  induction order generalizing sys runn with
  | nil => exact h
  | cons n rest ih =>
    simp only [drainStages]
    exact ih _ _ (get_removeEntry_none sys n k h)

theorem drain_final_runn_get_none (order : List String) (sys runn : Reg) (k : String)
    (h : alistGet runn k = none) :
    alistGet (drainStages sys runn order).2.2 k = none := by
  induction order generalizing sys runn with
  | nil => exact h
  | cons n rest ih =>
    simp only [drainStages]
    exact ih _ _ (get_removeEntry_none runn n k h)

theorem drain_visited_sys_none (order : List String) (sys runn : Reg)
    (hnd : (sys.map Prod.fst).Nodup) :
    ∀ k ∈ order, alistGet (drainStages sys runn order).2.1 k = none := by
  induction order generalizing sys runn with
  | nil => intro k hk; exact absurd hk (List.not_mem_nil k)
  | cons n rest ih =>
    intro k hk
    simp only [drainStages]
    rcases List.mem_cons.mp hk with rfl | hk'
    · exact drain_final_sys_get_none rest _ _ k (alistGet_removeEntry_self sys k hnd)
    · exact ih _ _ (nodup_keys_removeEntry sys n hnd) k hk'

theorem drain_visited_runn_none (order : List String) (sys runn : Reg)
    (hnd : (runn.map Prod.fst).Nodup) :
    ∀ k ∈ order, alistGet (drainStages sys runn order).2.2 k = none := by
  induction order generalizing sys runn with
  | nil => intro k hk; exact absurd hk (List.not_mem_nil k)
  | cons n rest ih =>
    intro k hk
    simp only [drainStages]
    rcases List.mem_cons.mp hk with rfl | hk'
    · exact drain_final_runn_get_none rest _ _ k (alistGet_removeEntry_self runn k hnd)
    · exact ih _ _ (nodup_keys_removeEntry runn n hnd) k hk'

theorem drain_of_none (order : List String) (sys runn : Reg)
    (h : ∀ k ∈ order, alistGet sys k = none ∧ alistGet runn k = none) :
    drainStages sys runn order = ([], sys, runn) := by
  induction order with
  | nil => rfl
  | cons n rest ih =>
    have h1 := (h n (List.mem_cons_self n rest)).1
    have h2 := (h n (List.mem_cons_self n rest)).2
    simp only [drainStages, alistRemoveEntry_of_get_none sys n h1,
      alistRemoveEntry_of_get_none runn n h2]
    rw [ih (fun k hk => h k (List.mem_cons_of_mem n hk))]
    rfl

/-! ## Build-layer lemmas -/

theorem build_eq (w : World) (r : Resources) (u : Universe) (rend : Option Renderer)
    (g : RenderGraph) (ss : List Sys) (sys runn : Reg) (ord : List String) :
    AppBuilder.build ⟨some w, some r, some u, rend, some g, ss, sys, runn, ord⟩
      = .ok
        ({ univ := u, world := { log := w.log ++ ss }
         , schedule := (drainStages sys runn ord).1
         , resources := { r with render_graph := some g }, renderer := rend },
         { world := none, resources := none, univ := none, renderer := none
         , render_graph := none, setup_systems := []
         , system_stages := (drainStages sys runn ord).2.1
         , runnable_stages := (drainStages sys runn ord).2.2
         , stage_order := ord }) := rfl

theorem build_ok_inv (b : AppBuilder) (p : App × AppBuilder) (h : b.build = .ok p) :
    ∃ w r u g, b.world = some w ∧ b.resources = some r ∧ b.univ = some u ∧
      b.render_graph = some g := by
  obtain ⟨ow, or, ou, orend, og, ss, sys, runn, ord⟩ := b
  cases ow with
  | none => exact absurd h (by simp [AppBuilder.build])
  | some w =>
    cases or with
    | none => exact absurd h (by simp [AppBuilder.build])
    | some r =>
      cases og with
      | none => exact absurd h (by simp [AppBuilder.build, executeSystems])
      | some g =>
        cases ou with
        | none => exact absurd h (by simp [AppBuilder.build, executeSystems])
        | some u => exact ⟨w, r, u, g, rfl, rfl, rfl, rfl⟩

theorem build_isOk_of_slots (b : AppBuilder) (w : World) (r : Resources) (u : Universe)
    (g : RenderGraph) (hw : b.world = some w) (hr : b.resources = some r)
    (hu : b.univ = some u) (hg : b.render_graph = some g) :
    (b.build).isOk = true := by
  obtain ⟨ow, or, ou, orend, og, ss, sys, runn, ord⟩ := b
  cases ow with
  | none => exact Option.noConfusion hw
  | some w0 =>
    cases or with
    | none => exact Option.noConfusion hr
    | some r0 =>
      cases og with
      | none => exact Option.noConfusion hg
      | some g0 =>
        cases ou with
        | none => exact Option.noConfusion hu
        | some u0 =>
          rw [build_eq]
          rfl

/-! ## Invariants of reachable builder states -/

theorem inv_sys_nodup (ops : List RegOp) :
    ((applyOps AppBuilder.new ops).system_stages.map Prod.fst).Nodup := by
  rw [sys_keys_applyOps]
  exact nodup_firstSeen _

theorem inv_runn_nodup (ops : List RegOp) :
    ((applyOps AppBuilder.new ops).runnable_stages.map Prod.fst).Nodup := by
  rw [runn_keys_applyOps]
  exact nodup_firstSeen _

theorem inv_sys_sub (ops : List RegOp) :
    ∀ x ∈ (applyOps AppBuilder.new ops).system_stages.map Prod.fst,
      x ∈ (applyOps AppBuilder.new ops).stage_order := by
  intro x hx
  rw [sys_keys_applyOps, mem_firstSeen] at hx
  rw [stage_order_applyOps]
  have hk : (false, x) ∈ ops.filterMap stageKey := (mem_parName_iff_stageKeys ops x).mp hx
  have hfs : (false, x) ∈ firstSeen (ops.filterMap stageKey) := (mem_firstSeen _ _).mpr hk
  exact List.mem_map.mpr ⟨(false, x), hfs, rfl⟩

theorem inv_runn_sub (ops : List RegOp) :
    ∀ x ∈ (applyOps AppBuilder.new ops).runnable_stages.map Prod.fst,
      x ∈ (applyOps AppBuilder.new ops).stage_order := by
  intro x hx
  rw [runn_keys_applyOps, mem_firstSeen] at hx
  rw [stage_order_applyOps]
  have hk : (true, x) ∈ ops.filterMap stageKey := (mem_excName_iff_stageKeys ops x).mp hx
  have hfs : (true, x) ∈ firstSeen (ops.filterMap stageKey) := (mem_firstSeen _ _).mpr hk
  exact List.mem_map.mpr ⟨(true, x), hfs, rfl⟩

theorem totalLen_sys_add_system_to_stage (b : AppBuilder) (m : String) (s : Sys) :
    totalLen (b.add_system_to_stage m s).system_stages = totalLen b.system_stages + 1 := by
  by_cases hget : alistGet b.system_stages m = none
  · have hsome : (alistGet (alistInsert b.system_stages m []) m).isSome = true := by
      rw [alistGet_insert]
      simp
    simp [AppBuilder.add_system_to_stage, hget, totalLen_push _ _ s hsome,
      totalLen_insert_absent _ _ _ hget]
  · rcases Option.ne_none_iff_exists'.mp hget with ⟨l₀, hl⟩
    have hsome : (alistGet b.system_stages m).isSome = true := by
      rw [hl]
      rfl
    simp [AppBuilder.add_system_to_stage, hget, totalLen_push _ _ s hsome]

theorem totalLen_runn_add_runnable_to_stage (b : AppBuilder) (m : String) (s : Sys) :
    totalLen (b.add_runnable_to_stage m s).runnable_stages
      = totalLen b.runnable_stages + 1 := by
  by_cases hget : alistGet b.runnable_stages m = none
  · have hsome : (alistGet (alistInsert b.runnable_stages m []) m).isSome = true := by
      rw [alistGet_insert]
      simp
    simp [AppBuilder.add_runnable_to_stage, hget, totalLen_push _ _ s hsome,
      totalLen_insert_absent _ _ _ hget]
  · rcases Option.ne_none_iff_exists'.mp hget with ⟨l₀, hl⟩
    have hsome : (alistGet b.runnable_stages m).isSome = true := by
      rw [hl]
      rfl
    simp [AppBuilder.add_runnable_to_stage, hget, totalLen_push _ _ s hsome]

theorem totalLen_sys_add_runnable_to_stage (b : AppBuilder) (m : String) (s : Sys) :
    totalLen (b.add_runnable_to_stage m s).system_stages = totalLen b.system_stages := by
  rw [sys_add_runnable_to_stage]

theorem totalLen_runn_add_system_to_stage (b : AppBuilder) (m : String) (s : Sys) :
    totalLen (b.add_system_to_stage m s).runnable_stages = totalLen b.runnable_stages := by
  rw [runn_add_system_to_stage]

theorem totalLen_applyOps (ops : List RegOp) :
    totalLen (applyOps AppBuilder.new ops).system_stages
      + totalLen (applyOps AppBuilder.new ops).runnable_stages
      = (ops.filterMap stageKey).length := by
  induction ops using List.reverseRecOn with
  | nil => rfl
  | append_singleton l op ih =>
    rw [applyOps_snoc]
    cases op with
    | addSystem s =>
      have hfm : ((l ++ [RegOp.addSystem s]).filterMap stageKey).length
          = (l.filterMap stageKey).length + 1 := by
        simp [stageKey, List.filterMap_append]
      simp only [applyOp, AppBuilder.add_system]
      rw [totalLen_sys_add_system_to_stage, totalLen_runn_add_system_to_stage, hfm]
      omega
    | addSystemToStage m s =>
      have hfm : ((l ++ [RegOp.addSystemToStage m s]).filterMap stageKey).length
          = (l.filterMap stageKey).length + 1 := by
        simp [stageKey, List.filterMap_append]
      simp only [applyOp]
      rw [totalLen_sys_add_system_to_stage, totalLen_runn_add_system_to_stage, hfm]
      omega
    | addSetupSystem s =>
      have hfm : ((l ++ [RegOp.addSetupSystem s]).filterMap stageKey).length
          = (l.filterMap stageKey).length := by
        simp [stageKey, List.filterMap_append]
      simp only [applyOp, AppBuilder.add_setup_system]
      rw [hfm]
      exact ih
    | addRunnableToStage m s =>
      have hfm : ((l ++ [RegOp.addRunnableToStage m s]).filterMap stageKey).length
          = (l.filterMap stageKey).length + 1 := by
        simp [stageKey, List.filterMap_append]
      simp only [applyOp]
      rw [totalLen_sys_add_runnable_to_stage, totalLen_runn_add_runnable_to_stage, hfm]
      omega

/-! ## Claim theorems -/

/-- Claim C1, counterexample: registering stage "A" first with a parallel unit and
then with an exclusive unit appends "A" to `stage_order` twice, because
`add_runnable_to_stage` consults only `runnable_stages`, not both kinds' maps;
so `stage_order` is not duplicate-free as the claim states. -/
theorem claim_C1_counterexample :
    (applyOps AppBuilder.new
      [RegOp.addSystemToStage "A" 0, RegOp.addRunnableToStage "A" 1]).stage_order
      = ["A", "A"]
    ∧ ¬ (applyOps AppBuilder.new
      [RegOp.addSystemToStage "A" 0, RegOp.addRunnableToStage "A" 1]).stage_order.Nodup := by
  constructor
  · rfl
  · decide

/-- Claim C1, amended: for every sequence of registration calls, `stage_order`
equals the sequence of first-seen distinct (kind, stage-name) pairs projected to
names: each kind checks only its own map, so a name is appended on its first
registration under each kind separately (at most twice in total), and
re-registering a name under an already-seen kind leaves `stage_order` unchanged. -/
theorem claim_C1_stage_order (ops : List RegOp) :
    (applyOps AppBuilder.new ops).stage_order
      = (firstSeen (ops.filterMap stageKey)).map Prod.snd :=
  stage_order_applyOps ops

/-- Claim C2, counterexample: a single named stage "A" holding one parallel and
one exclusive unit compiles to a schedule with two barriers, one after the
parallel block and another after the exclusive block — not exactly one barrier
placed after both kinds' units as the claim states. -/
theorem claim_C2_counterexample :
    mainSteps (applyOps AppBuilder.new
        [RegOp.addSystemToStage "A" 0, RegOp.addRunnableToStage "A" 1])
      = [Step.system 0, Step.flush, Step.threadLocal 1, Step.flush]
    ∧ (mainSteps (applyOps AppBuilder.new
        [RegOp.addSystemToStage "A" 0, RegOp.addRunnableToStage "A" 1])).count Step.flush
      = 2 := by
  constructor
  · rfl
  · rfl

/-- Claim C2, amended: `build()` inserts one barrier after a stage's parallel
block when the stage has a parallel entry and another after its exclusive block
when it has an exclusive entry, so the number of barriers equals the number of
distinct parallel stage names plus the number of distinct exclusive stage
names; for the registry with stages ["A","B"] each holding one parallel unit,
the compiled schedule is exactly [unit A, barrier, unit B, barrier] — two
barriers, with B's unit strictly after A's barrier. -/
theorem claim_C2_barriers (ops : List RegOp) :
    (mainSteps (applyOps AppBuilder.new ops)).count Step.flush
      = (firstSeen (ops.filterMap parName)).length
        + (firstSeen (ops.filterMap excName)).length
    ∧ mainSteps (applyOps AppBuilder.new
        [RegOp.addSystemToStage "A" 0, RegOp.addSystemToStage "B" 1])
      = [Step.system 0, Step.flush, Step.system 1, Step.flush] := by
  constructor
  · have h := drain_flushCount (applyOps AppBuilder.new ops).stage_order
      (applyOps AppBuilder.new ops).system_stages
      (applyOps AppBuilder.new ops).runnable_stages
      (inv_sys_nodup ops) (inv_runn_nodup ops) (inv_sys_sub ops) (inv_runn_sub ops)
    simp only [mainSteps]
    rw [h]
    have h1 : (applyOps AppBuilder.new ops).system_stages.length
        = (firstSeen (ops.filterMap parName)).length := by
      rw [← sys_keys_applyOps]
      exact (List.length_map _ _).symm
    have h2 : (applyOps AppBuilder.new ops).runnable_stages.length
        = (firstSeen (ops.filterMap excName)).length := by
      rw [← runn_keys_applyOps]
      exact (List.length_map _ _).symm
    omega
  · rfl

/-- Claim C3, counterexample: the first `build()` on a fresh builder succeeds and
leaves every slot empty, and a second `build()` on that state is precisely a
panic on `Option::unwrap` of the empty `world` slot — not a distinct
ProgrammingError as the claim states. -/
theorem claim_C3_counterexample :
    (AppBuilder.new.build).isOk = true
    ∧ (AppBuilder.new.build).toOption.map (fun p => p.2)
      = some { world := none, resources := none, univ := none, renderer := none
             , render_graph := none, setup_systems := []
             , system_stages := [], runnable_stages := [], stage_order := [] }
    ∧ AppBuilder.build
        { world := none, resources := none, univ := none, renderer := none
        , render_graph := none, setup_systems := []
        , system_stages := [], runnable_stages := [], stage_order := [] }
      = .error (PanicKind.unwrapNone "world") := by
  exact ⟨rfl, rfl, rfl⟩

/-- Claim C3, amended: calling `build()` a second time does fail fast — it
aborts construction without returning an application and without silently
no-oping — but the failure is exactly a panic on unwrapping the empty `world`
slot (the first `unwrap` that `build()` executes), not a dedicated
ProgrammingError value. -/
theorem claim_C3_second_build (st : AppBuilder) (a : App) (st' : AppBuilder)
    (h : st.build = .ok (a, st')) :
    st'.build = .error (PanicKind.unwrapNone "world") := by
  obtain ⟨ow, or, ou, orend, og, ss, sys, runn, ord⟩ := st
  cases ow with
  | none => exact absurd h (by simp [AppBuilder.build])
  | some w =>
    cases or with
    | none => exact absurd h (by simp [AppBuilder.build])
    | some r =>
      cases og with
      | none => exact absurd h (by simp [AppBuilder.build, executeSystems])
      | some g =>
        cases ou with
        | none => exact absurd h (by simp [AppBuilder.build, executeSystems])
        | some u =>
          rw [build_eq] at h
          simp only [Except.ok.injEq, Prod.mk.injEq] at h
          rw [← h.2]
          rfl

/-- Claim C3, witness for the amended theorem at the fresh builder. -/
theorem claim_C3_second_build_witness :
    AppBuilder.build
      { world := none, resources := none, univ := none, renderer := none
      , render_graph := none, setup_systems := []
      , system_stages := [], runnable_stages := [], stage_order := [] }
      = .error (PanicKind.unwrapNone "world") :=
  claim_C3_second_build AppBuilder.new
    { univ := Universe.new, world := { log := [] }, schedule := []
    , resources := { render_graph := some RenderGraph.default }, renderer := none }
    { world := none, resources := none, univ := none, renderer := none
    , render_graph := none, setup_systems := []
    , system_stages := [], runnable_stages := [], stage_order := [] }
    rfl

/-- Claim C4 (confirmed): the number of work units in the built main schedule
equals the number of stage registrations (no unit lost or duplicated): each
stage's map entry is exactly its registered units in registration order, and
that list appears contiguously (an infix, hence order-preserving) in the
schedule's projection onto its kind. -/
theorem claim_C4_conservation (ops : List RegOp) :
    countUnits (mainSteps (applyOps AppBuilder.new ops)) = (ops.filterMap stageKey).length
    ∧ (∀ n, alistGet (applyOps AppBuilder.new ops).system_stages n
        = olist (registeredPar ops n))
    ∧ (∀ n, alistGet (applyOps AppBuilder.new ops).runnable_stages n
        = olist (registeredExc ops n))
    ∧ (∀ n l, alistGet (applyOps AppBuilder.new ops).system_stages n = some l →
        l <:+: parUnits (mainSteps (applyOps AppBuilder.new ops)))
    ∧ (∀ n l, alistGet (applyOps AppBuilder.new ops).runnable_stages n = some l →
        l <:+: excUnits (mainSteps (applyOps AppBuilder.new ops))) := by
  refine ⟨?_, sys_get_applyOps ops, runn_get_applyOps ops, ?_, ?_⟩
  · simp only [mainSteps]
    rw [drain_countUnits _ _ _ (inv_sys_nodup ops) (inv_runn_nodup ops)
      (inv_sys_sub ops) (inv_runn_sub ops)]
    exact totalLen_applyOps ops
  · intro n l hget
    exact drain_par_infix _ _ _ n l (inv_sys_nodup ops) (inv_sys_sub ops) hget
  · intro n l hget
    exact drain_exc_infix _ _ _ n l (inv_runn_nodup ops) (inv_runn_sub ops) hget

/-- Claim C4, witness: the unit registered under stage "A" appears, in order, in
the built schedule's parallel projection. -/
theorem claim_C4_conservation_witness :
    [(5 : Sys)] <:+: parUnits (mainSteps (applyOps AppBuilder.new
      [RegOp.addSystemToStage "A" 5])) :=
  (claim_C4_conservation [RegOp.addSystemToStage "A" 5]).2.2.2.1 "A" [5] (by decide)

/-- Claim C5 (confirmed): the drain loop of `build()` removes each stage's
entry from the per-kind maps as it consumes it, so draining the resulting
registry a second time over the same stage order yields no units at all — the
empty schedule and unchanged maps, not an error. -/
theorem claim_C5_drain_idempotent (sys runn : Reg) (order : List String)
    (hnd1 : (sys.map Prod.fst).Nodup) (hnd2 : (runn.map Prod.fst).Nodup) :
    drainStages (drainStages sys runn order).2.1 (drainStages sys runn order).2.2 order
      = ([], (drainStages sys runn order).2.1, (drainStages sys runn order).2.2) := by
  apply drain_of_none
  intro k hk
  exact ⟨drain_visited_sys_none order sys runn hnd1 k hk,
    drain_visited_runn_none order sys runn hnd2 k hk⟩

/-- Claim C5, witness at a one-stage registry. -/
theorem claim_C5_drain_idempotent_witness :
    drainStages (drainStages [("A", [1])] [] ["A"]).2.1
        (drainStages [("A", [1])] [] ["A"]).2.2 ["A"]
      = ([], (drainStages [("A", [1])] [] ["A"]).2.1,
          (drainStages [("A", [1])] [] ["A"]).2.2) :=
  claim_C5_drain_idempotent [("A", [1])] [] ["A"] (by decide) (by decide)

/-- Claim C6 (confirmed): `build()` executes every setup system exactly once, in
order, against the world before the application is produced (the produced
world's log is the old log extended by exactly the setup list); the setup list
is fully drained; and the main schedule is built from the stage maps alone, so
no setup registration contributes a step to it. -/
theorem claim_C6_setup_once (st : AppBuilder) (w : World) (r : Resources)
    (u : Universe) (g : RenderGraph) (hw : st.world = some w) (hr : st.resources = some r)
    (hu : st.univ = some u) (hg : st.render_graph = some g) :
    ∃ a st', st.build = .ok (a, st')
      ∧ a.world.log = w.log ++ st.setup_systems
      ∧ st'.setup_systems = []
      ∧ a.schedule = (drainStages st.system_stages st.runnable_stages st.stage_order).1 := by
  obtain ⟨ow, or, ou, orend, og, ss, sys, runn, ord⟩ := st
  cases ow with
  | none => exact Option.noConfusion hw
  | some w0 =>
    cases or with
    | none => exact Option.noConfusion hr
    | some r0 =>
      cases og with
      | none => exact Option.noConfusion hg
      | some g0 =>
        cases ou with
        | none => exact Option.noConfusion hu
        | some u0 =>
          injection hw with hww
          subst hww
          rw [build_eq]
          exact ⟨_, _, rfl, rfl, rfl, rfl⟩

/-- Claim C6, witness: a fresh builder with one setup system builds into an
application whose world log is exactly that system, with the setup list drained
and an empty main schedule. -/
theorem claim_C6_setup_once_witness :
    ∃ a st', (AppBuilder.add_setup_system AppBuilder.new 7).build = .ok (a, st')
      ∧ a.world.log = [7] ∧ st'.setup_systems = [] ∧ a.schedule = [] :=
  claim_C6_setup_once _ { log := [] } Resources.default Universe.new
    RenderGraph.default rfl rfl rfl rfl

/-- Claim C7 (confirmed): `setup_render_graph` takes the graph out of the slot,
hands a builder pre-populated with it to the caller-supplied setup function,
stores the finished graph back, and leaves every other field unchanged; in
particular whenever it returns successfully the `render_graph` slot is occupied
again. -/
theorem claim_C7_setup_render_graph (st : AppBuilder)
    (f : RenderGraphBuilder → RenderGraphBuilder) (g : RenderGraph) (r : Resources)
    (hg : st.render_graph = some g) (hr : st.resources = some r) :
    st.setup_render_graph f
      = .ok { st with
          render_graph := some (RenderGraphBuilder.finish (f (RenderGraph.build g))) }
    ∧ ∀ st', st.setup_render_graph f = .ok st' → st'.render_graph.isSome = true := by
  constructor
  · simp only [AppBuilder.setup_render_graph, hg, hr]
  · intro st' h
    simp only [AppBuilder.setup_render_graph, hg, hr, Except.ok.injEq] at h
    rw [← h]
    rfl

/-- Claim C7, witness: adding a draw target through `setup_render_graph` on a
fresh builder refills the slot with the finished graph. -/
theorem claim_C7_setup_render_graph_witness :
    AppBuilder.new.setup_render_graph (fun b => b.add_draw_target "t" 3)
      = .ok { AppBuilder.new with
          render_graph := some (RenderGraphBuilder.finish
            ((RenderGraph.build RenderGraph.default).add_draw_target "t" 3)) } :=
  (claim_C7_setup_render_graph AppBuilder.new _ RenderGraph.default
    Resources.default rfl rfl).1

/-- Claim C8 (confirmed): `add_system` is exactly `add_system_to_stage` at the
UPDATE stage — the two calls produce identical builder states. -/
theorem claim_C8_add_system_update (st : AppBuilder) (s : Sys) :
    st.add_system s = st.add_system_to_stage system_stage.UPDATE s := rfl

/-- Claim C9 (confirmed): a successful `build()` leaves `stage_order` exactly as
it was, while the setup list is drained and the world, resources, universe,
render-graph and renderer slots are all taken. -/
theorem claim_C9_stage_order_preserved (st : AppBuilder) (a : App) (st' : AppBuilder)
    (h : st.build = .ok (a, st')) :
    st'.stage_order = st.stage_order ∧ st'.setup_systems = []
    ∧ st'.world = none ∧ st'.resources = none ∧ st'.univ = none
    ∧ st'.render_graph = none ∧ st'.renderer = none := by
  obtain ⟨ow, or, ou, orend, og, ss, sys, runn, ord⟩ := st
  cases ow with
  | none => exact absurd h (by simp [AppBuilder.build])
  | some w =>
    cases or with
    | none => exact absurd h (by simp [AppBuilder.build])
    | some r =>
      cases og with
      | none => exact absurd h (by simp [AppBuilder.build, executeSystems])
      | some g =>
        cases ou with
        | none => exact absurd h (by simp [AppBuilder.build, executeSystems])
        | some u =>
          rw [build_eq] at h
          simp only [Except.ok.injEq, Prod.mk.injEq] at h
          rw [← h.2]
          exact ⟨rfl, rfl, rfl, rfl, rfl, rfl, rfl⟩

/-- Claim C9, witness at a builder holding one registered stage. -/
theorem claim_C9_stage_order_preserved_witness :
    (AppBuilder.mk none none none none none [] [] [] ["A"]).stage_order
      = (applyOps AppBuilder.new [RegOp.addSystemToStage "A" 0]).stage_order
    ∧ (AppBuilder.mk none none none none none [] [] [] ["A"]).setup_systems = []
    ∧ (AppBuilder.mk none none none none none [] [] [] ["A"]).world = none
    ∧ (AppBuilder.mk none none none none none [] [] [] ["A"]).resources = none
    ∧ (AppBuilder.mk none none none none none [] [] [] ["A"]).univ = none
    ∧ (AppBuilder.mk none none none none none [] [] [] ["A"]).render_graph = none
    ∧ (AppBuilder.mk none none none none none [] [] [] ["A"]).renderer = none :=
  claim_C9_stage_order_preserved
    (applyOps AppBuilder.new [RegOp.addSystemToStage "A" 0])
    { univ := Universe.new, world := { log := [] }
    , schedule := [Step.system 0, Step.flush]
    , resources := { render_graph := some RenderGraph.default }, renderer := none }
    (AppBuilder.mk none none none none none [] [] [] ["A"])
    rfl

/-- Claim C10 (confirmed): `AppBuilder::new()` fills every required slot —
universe, world, resources and render graph are all `Some` (the render graph
being the default graph), the renderer is `None`, and the stage collections,
setup list and stage order are empty — and consequently the first `build()` on
a fresh builder, after any sequence of registration calls, succeeds without
hitting an empty slot. -/
theorem claim_C10_new_slots :
    AppBuilder.new.univ = some Universe.new
    ∧ AppBuilder.new.world = some (Universe.create_world Universe.new)
    ∧ AppBuilder.new.resources = some Resources.default
    ∧ AppBuilder.new.render_graph = some RenderGraph.default
    ∧ AppBuilder.new.renderer = none
    ∧ AppBuilder.new.setup_systems = []
    ∧ AppBuilder.new.system_stages = []
    ∧ AppBuilder.new.runnable_stages = []
    ∧ AppBuilder.new.stage_order = []
    ∧ ∀ ops : List RegOp, ((applyOps AppBuilder.new ops).build).isOk = true := by
  refine ⟨rfl, rfl, rfl, rfl, rfl, rfl, rfl, rfl, rfl, ?_⟩
  intro ops
  obtain ⟨hw, hr, hu, -, hg⟩ := slots_applyOps AppBuilder.new ops
  exact build_isOk_of_slots _ _ _ _ _ hw hr hu hg
